import Mathlib

/-!
Verification of the lot-parsing and ERP-resolution core of Cert-Print-Agent.

The definitions below are a shallow embedding of the Python sources:
  * `parse_lot`                 — JSONExtractLotAgent.parse_lot
  * `search_lot_in_sheet`       — ERPAgent.search_lot_in_sheet (rows already
                                  normalized, as after ERPAgent.load_excel_sheet)
  * `search_lot`                — ERPAgent.search_lot
  * `search_multiple_lots`      — ERPAgent.search_multiple_lots
  * `generate_annotation_text`  — ERPAgent.generate_annotation_text
  * `process_certificate`       — ERPAgent.process_certificate
  * `json_extraction_result`    — the shape of JSONExtractLotAgent.process_json output

Python strings are modelled as Lean `String` (lists of characters); Python
`str.split(c)` as `pySplit`, `str.isdigit` as `pyIsDigitL` (non-empty, all
decimal digits), `int(...)` on a digit string as `digitsToNat`, `str.strip()`
as `pyStrip`, `str.lstrip("0")` as `lstrip0`, and `sep.join(...)` as `pyJoin`.
Python dicts with optional keys are structures with `Option` fields where a
missing key is `none`.
-/

/-- Python `c in s` style split on a single character, as `str.split(c)`:
always returns at least one (possibly empty) piece. -/
def pySplit (sep : Char) : List Char → List (List Char)
  | [] => [[]]
  | c :: cs =>
    let r := pySplit sep cs
    if c = sep then [] :: r else (c :: r.headD []) :: r.tail

/-- Python `str.isdigit()` for the ASCII-digit strings this program handles:
non-empty and every character a decimal digit. -/
def pyIsDigitL (s : List Char) : Bool := !s.isEmpty && s.all (fun c => c.isDigit)

/-- Python `int(...)` applied to a decimal-digit string. -/
def digitsToNat (s : List Char) : Nat :=
  s.foldl (fun a c => 10 * a + (c.toNat - 48)) 0

/-- Python `str.strip()`: drop whitespace from both ends. -/
def pyStrip (s : String) : String :=
  String.mk (((s.data.dropWhile Char.isWhitespace).reverse.dropWhile Char.isWhitespace).reverse)

/-- Python `str.lstrip("0")`: drop leading `'0'` characters. -/
def lstrip0 (s : String) : String := String.mk (s.data.dropWhile (fun c => c = '0'))

/-- Python `sep.join(parts)`. -/
def pyJoin (sep : String) : List String → String
  | [] => ""
  | [x] => x
  | x :: xs => x ++ sep ++ pyJoin sep xs

/-- The dict returned by `JSONExtractLotAgent.parse_lot`:
keys `type`, `base_lot`, `count`, `expanded_lots`, `annotation_hint`
(`base_lot` and `annotation_hint` may be Python `None`). -/
structure LotDesc where
  type : String
  base_lot : Option String
  count : Int
  expanded_lots : List String
  hint : Option String
deriving Repr, DecidableEq

/-- The fall-through descriptor of `parse_lot`:
`{"type": "single", "base_lot": raw, "count": 1, "expanded_lots": [raw],
  "annotation_hint": None}`. -/
def singleDesc (raw : String) : LotDesc :=
  { type := "single", base_lot := some raw, count := 1,
    expanded_lots := [raw], hint := none }

/-- `JSONExtractLotAgent.parse_lot` (lines 44-74):
dash rule (`"-" in raw and all(p.isdigit() for p in raw.split("-") if p)`)
gives `explicit_multi`; slash rule (`"/" in raw`, exactly two digit pieces)
gives `implicit_multi` with `count = int(parts[1])` and
`annotation_hint = f"+\x7bcnt-1\x7d"`; everything else falls through to
`single`.  The function is total: it returns a descriptor on every input. -/
def parse_lot (raw : String) : LotDesc :=
  let L := raw.data
  if ('-' ∈ L) ∧ (((pySplit '-' L).filter (fun p => !p.isEmpty)).all pyIsDigitL = true) then
    let parts := (pySplit '-' L).map (fun p => String.mk p)
    { type := "explicit_multi", base_lot := none, count := (parts.length : Int),
      expanded_lots := parts, hint := none }
  else if '/' ∈ L then
    match pySplit '/' L with
    | [p0, p1] =>
      if pyIsDigitL p0 && pyIsDigitL p1 then
        { type := "implicit_multi", base_lot := some (String.mk p0),
          count := (digitsToNat p1 : Int),
          expanded_lots := [String.mk p0],
          hint := some ("+" ++ toString ((digitsToNat p1 : Int) - 1)) }
      else singleDesc raw
    | _ => singleDesc raw
  else singleDesc raw

example : parse_lot "139865/2" =
    { type := "implicit_multi", base_lot := some "139865", count := 2,
      expanded_lots := ["139865"], hint := some "+1" } := by decide

example : parse_lot "139859-139860" =
    { type := "explicit_multi", base_lot := none, count := 2,
      expanded_lots := ["139859", "139860"], hint := none } := by decide

example : parse_lot "139912/139913" =
    { type := "implicit_multi", base_lot := some "139912", count := 139913,
      expanded_lots := ["139912"], hint := some "+139912" } := by decide

example : parse_lot "" = singleDesc "" := by decide

example : parse_lot "ABC12" = singleDesc "ABC12" := by decide

/-- One row of a loaded ERP sheet, with the key column already normalized the
way `ERPAgent.load_excel_sheet` leaves it (stringified, stripped, `".0"`
artifacts removed): `cert` is the cert-lot key column, `supplier` and
`internal_lot` the other two required columns. -/
structure ErpRow where
  cert : String
  supplier : String
  internal_lot : String
deriving Repr, DecidableEq

/-- The dict built by `ERPAgent.search_lot` and enriched by
`ERPAgent.search_multiple_lots`: keys `cert_lot`, `found`, `supplier`,
`internal_lot`, `sheet_found` always present (the last three possibly `None`),
and keys `type`, `annotation_hint`, `count` present only after enrichment
(`none` models an absent or `None`-valued key, matching `dict.get`). -/
structure LotResult where
  cert_lot : String
  found : Bool
  supplier : Option String := none
  internal_lot : Option String := none
  sheet_found : Option String := none
  type : Option String := none
  hint : Option String := none
  count : Option Int := none
deriving Repr, DecidableEq

/-- `ERPAgent.search_lot_in_sheet` (lines 67-91): a sheet whose load failed is
`none` and yields no row; otherwise try an exact match of the stripped query
against the normalized key column, then a match with leading zeros stripped
from both sides; first matching row wins (`matches.iloc[0]`), else `None`. -/
def search_lot_in_sheet (cert_lot_number : String) (sheet : Option (List ErpRow)) :
    Option ErpRow :=
  match sheet with
  | none => none
  | some df =>
    let lot_str := pyStrip cert_lot_number
    match df.find? (fun row => row.cert = lot_str) with
    | some r => some r
    | none => df.find? (fun row => lstrip0 row.cert = lstrip0 lot_str)

/-- `ERPAgent.search_lot` (lines 93-116): walk the configured sheets (name and
loaded table, `none` for a failed load) in priority order; the first sheet
producing a row fills `found`, `supplier`, `internal_lot`, `sheet_found` and
stops; if none does, the initial all-`None` result is returned.  A miss is a
returned value, never an exception. -/
def search_lot (sheets : List (String × Option (List ErpRow))) (cert_lot_number : String) :
    LotResult :=
  match sheets with
  | [] => { cert_lot := cert_lot_number, found := false }
  | (name, tbl) :: rest =>
    match search_lot_in_sheet cert_lot_number tbl with
    | some row =>
      { cert_lot := cert_lot_number, found := true, supplier := some row.supplier,
        internal_lot := some row.internal_lot, sheet_found := some name }
    | none => search_lot rest cert_lot_number

/-- One entry of the `lot_info` list of an extraction result.
`JSONExtractLotAgent.process_json` emits entries with only `num` and `type`;
`ExtractLotAgent.process_certificate` emits `num`, `type` and `hint` (note:
key `hint`, not `annotation_hint`).  Absent keys are `none`. -/
structure LotInfo where
  num : String
  type : Option String := none
  hint : Option String := none
  count : Option Int := none
deriving Repr, DecidableEq

/-- The extraction-result dict consumed by `ERPAgent.process_certificate`,
restricted to the keys it reads.  `hint` models the `annotation_hint` key,
which no producer in the repository ever sets (`none` = key absent). -/
structure ExtractionResult where
  certification_number : String
  lot_numbers : List String
  lot_info : List LotInfo
  hint : Option String := none
deriving Repr, DecidableEq

/-- The extraction result built by `JSONExtractLotAgent.process_json` for a
raw token `tok` (I/O-only fields omitted): `lot_numbers` are the parsed
descriptor's `expanded_lots`, `lot_info` is the one-element list
`[\x7b"num": lot_raw, "type": type\x7d]`, and no `annotation_hint` key is set. -/
def json_extraction_result (tok : String) : ExtractionResult :=
  let d := parse_lot tok
  { certification_number := "UNKNOWN",
    lot_numbers := d.expanded_lots,
    lot_info := [{ num := tok, type := some d.type }] }

/-- `ERPAgent.search_multiple_lots` (lines 119-144): resolve each lot number
independently; when a matching `lot_info` entry exists (`i < len(lot_info)`),
copy `type` (default `"single"`), `annotation_hint` (key absent gives `None`)
and `count` (default 1) onto the result. -/
def search_multiple_lots (sheets : List (String × Option (List ErpRow)))
    (extraction : ExtractionResult) : List LotResult :=
  extraction.lot_numbers.enum.map (fun p =>
    let r := search_lot sheets p.2
    match extraction.lot_info.get? p.1 with
    | some info =>
      { r with type := some (info.type.getD "single"),
               hint := info.hint,
               count := some (info.count.getD 1) }
    | none => r)

/-- The Python insertion-ordered dict `supplier_groups`: append the lot to an
existing supplier's list, or add a new `(supplier, [lot])` entry at the end. -/
def addToGroups (groups : List (String × List String)) (supplier lot : String) :
    List (String × List String) :=
  if supplier ∈ groups.map Prod.fst then
    groups.map (fun g => if g.1 = supplier then (g.1, g.2 ++ [lot]) else g)
  else groups ++ [(supplier, [lot])]

/-- One step of the grouping loop of `ERPAgent.generate_annotation_text`
(lines 162-171): a found result appends its stripped internal lot to the
group of its stripped supplier; a not-found result appends its `cert_lot` to
the not-found list. -/
def gStep (acc : List (String × List String) × List String) (r : LotResult) :
    List (String × List String) × List String :=
  if r.found then
    (addToGroups acc.1 (pyStrip (r.supplier.getD "")) (pyStrip (r.internal_lot.getD "")), acc.2)
  else (acc.1, acc.2 ++ [r.cert_lot])

/-- The grouping loop of `ERPAgent.generate_annotation_text`: found results
grouped by stripped supplier in insertion order, not-found `cert_lot` values
collected in input order. -/
def groupResults (lot_results : List LotResult) :
    List (String × List String) × List String :=
  lot_results.foldl gStep ([], [])

/-- The per-supplier segment of the multi-supplier branch (lines 194-199):
one lot renders `"<supplier> - Lot  <lot>"`, several render
`"<supplier> - Lot <l1> - Lot  <l2> - ..."`. -/
def renderGroup (g : String × List String) : String :=
  if g.2.length = 1 then g.1 ++ " - Lot  " ++ (g.2.headD "")
  else g.1 ++ " - Lot " ++ pyJoin " - Lot  " g.2

/-- The `parts` list built by `ERPAgent.generate_annotation_text`
(lines 174-203) when at least one result is found: one segment per supplier
group — the single-supplier single-lot segment appending the truthy
`annotation_hint` argument after the lot — plus one trailing not-found
segment when any lot was not found. -/
def annotationParts (lot_results : List LotResult) (hint : Option String) :
    List String :=
  let gs := groupResults lot_results
  let supplierParts : List String :=
    if gs.1.length = 1 then
      let g := gs.1.headD ("", [])
      if g.2.length = 1 then
        let lot0 := g.2.headD ""
        let lot_text :=
          match hint with
          | some h => if h.isEmpty then lot0 else lot0 ++ " " ++ h
          | none => lot0
        [g.1 ++ " - Lot  " ++ lot_text]
      else [g.1 ++ " - Lot " ++ pyJoin " - Lot  " g.2]
    else gs.1.map renderGroup
  supplierParts ++ (if gs.2.isEmpty then [] else [pyJoin " - " gs.2 ++ " N/A"])

/-- `ERPAgent.generate_annotation_text` (lines 146-205).  Empty input returns
the Arabic "not registered" sentinel; input with no found result returns the
sentinel, a slash, the cert lots joined by `" - "` and an `" N/A"` suffix;
otherwise the `annotationParts` segments joined with `" | "`, a lone segment
being returned unjoined (`parts[0]`). -/
def generate_annotation_text (lot_results : List LotResult) (hint : Option String) :
    String :=
  if lot_results.isEmpty then "غير مسجل في النظام"
  else if !(lot_results.any (fun r => r.found)) then
    "غير مسجل في النظام / " ++ pyJoin " - " (lot_results.map (fun r => r.cert_lot)) ++ " N/A"
  else
    let parts := annotationParts lot_results hint
    if parts.length > 1 then pyJoin " | " parts else parts.headD ""

/-- The fields of the dict built by `ERPAgent.process_certificate`
(lines 207-239) that carry the resolution outcome. -/
structure CertResult where
  cert_number : String
  lot_results : List LotResult
  annotation_text : String
  all_found : Bool
  found_count : Nat
  total_lots : Nat
deriving Repr, DecidableEq

/-- `ERPAgent.process_certificate`: resolve all lot numbers, read
`annotation_hint` off the extraction result (a key no producer sets), and
compose the annotation text. -/
def process_certificate (sheets : List (String × Option (List ErpRow)))
    (extraction : ExtractionResult) : CertResult :=
  let lot_results := search_multiple_lots sheets extraction
  let found_count := (lot_results.filter (fun r => r.found)).length
  let total_lots := lot_results.length
  let annotation_text := generate_annotation_text lot_results extraction.hint
  { cert_number := extraction.certification_number,
    lot_results := lot_results,
    annotation_text := annotation_text,
    all_found := (found_count == total_lots) && (total_lots != 0),
    found_count := found_count,
    total_lots := total_lots }

example :
    generate_annotation_text
      [{ cert_lot := "139912", found := true, supplier := some "Acme",
         internal_lot := some "139912" },
       { cert_lot := "139913", found := true, supplier := some "Acme",
         internal_lot := some "139913" }] none
    = "Acme - Lot 139912 - Lot  139913" := by decide

example :
    (process_certificate [("2025", some [⟨"139865", "Delta", "139865"⟩])]
      (json_extraction_result "139865/2")).annotation_text
    = "Delta - Lot  139865" := by decide

example :
    (process_certificate [("2025", some [])]
      (json_extraction_result "999999")).annotation_text
    = "غير مسجل في النظام / 999999 N/A" := by decide

example :
    generate_annotation_text
      [{ cert_lot := "139865", found := true, supplier := some "Delta",
         internal_lot := some "139865" }] (some "+1")
    = "Delta - Lot  139865 +1" := by decide

/-- The dash rule of `parse_lot` as a boolean predicate:
`"-" in raw and all(p.isdigit() for p in raw.split("-") if p)`. -/
def dashRuleHolds (L : List Char) : Bool :=
  decide ('-' ∈ L) && ((pySplit '-' L).filter (fun p => !p.isEmpty)).all pyIsDigitL

/-- The slash rule of `parse_lot` as a boolean predicate: `"/" in raw`,
exactly two pieces, both digit strings. -/
def slashRuleHolds (L : List Char) : Bool :=
  decide ('/' ∈ L) &&
    (match pySplit '/' L with
     | [p0, p1] => pyIsDigitL p0 && pyIsDigitL p1
     | _ => false)

theorem mk_data (s : String) : String.mk s.data = s := by
  cases s
  rfl

theorem pySplit_ne_nil (sep : Char) (l : List Char) : pySplit sep l ≠ [] := by
  cases l with
  | nil => simp [pySplit]
  | cons c cs =>
    simp only [pySplit]
    split <;> simp

theorem pySplit_of_not_mem (sep : Char) (l : List Char) (h : sep ∉ l) :
    pySplit sep l = [l] := by
  induction l with
  | nil => rfl
  | cons c cs ih =>
    rw [List.mem_cons, not_or] at h
    have hc : ¬ c = sep := fun e => h.1 e.symm
    simp only [pySplit, ih h.2, if_neg hc]
    rfl

theorem pySplit_append (sep : Char) (a b : List Char) (h : sep ∉ a) :
    pySplit sep (a ++ sep :: b) = a :: pySplit sep b := by
  induction a with
  | nil => simp [pySplit]
  | cons c a' ih =>
    rw [List.mem_cons, not_or] at h
    have hc : ¬ c = sep := fun e => h.1 e.symm
    simp only [List.cons_append, pySplit, List.append_eq, ih h.2, if_neg hc]
    rfl

theorem not_mem_of_pyIsDigitL {s : List Char} {c : Char}
    (hd : pyIsDigitL s = true) (hc : ¬ c.isDigit = true) : c ∉ s := by
  intro hm
  have h2 : s.all (fun x => x.isDigit) = true := by
    unfold pyIsDigitL at hd
    simp only [Bool.and_eq_true] at hd
    exact hd.2
  exact hc (List.all_eq_true.mp h2 c hm)

/-- Evaluation of `parse_lot` on a token made of two digit pieces joined by a
slash: always the `implicit_multi` descriptor, with the second piece read as
the count. -/
theorem parse_lot_slash (a b : List Char)
    (ha : pyIsDigitL a = true) (hb : pyIsDigitL b = true) :
    parse_lot (String.mk (a ++ '/' :: b)) =
      { type := "implicit_multi", base_lot := some (String.mk a),
        count := (digitsToNat b : Int), expanded_lots := [String.mk a],
        hint := some ("+" ++ toString ((digitsToNat b : Int) - 1)) } := by
  have hda : '-' ∉ a := not_mem_of_pyIsDigitL ha (by decide)
  have hdb : '-' ∉ b := not_mem_of_pyIsDigitL hb (by decide)
  have hsa : '/' ∉ a := not_mem_of_pyIsDigitL ha (by decide)
  have hsb : '/' ∉ b := not_mem_of_pyIsDigitL hb (by decide)
  have hdash : '-' ∉ (a ++ '/' :: b) := by
    simp only [List.mem_append, List.mem_cons]
    push_neg
    exact ⟨hda, by decide, hdb⟩
  have hmem : '/' ∈ a ++ '/' :: b := List.mem_append_right _ (List.mem_cons_self _ _)
  have hsplit : pySplit '/' (a ++ '/' :: b) = [a, b] := by
    rw [pySplit_append '/' a b hsa, pySplit_of_not_mem '/' b hsb]
  unfold parse_lot
  rw [if_neg (fun hcon => hdash hcon.1), if_pos hmem, hsplit]
  simp only [ha, hb, Bool.and_self, if_pos]

/-- C6: for every purely numeric string `a` of 5-6 digits and every `n` in
[1,10], `parse_lot` on `a + "/" + str(n)` yields the `implicit_multi`
descriptor with `base_lot = a`, `expanded_lots = [a]`, `count = n` and
`annotation_hint = "+" + str(n-1)`. -/
theorem C6_implicit_multi_parse (a : String) (n : Nat)
    (hdig : a.data.all (fun c => c.isDigit) = true)
    (hlen5 : 5 ≤ a.length) (hlen6 : a.length ≤ 6)
    (hn1 : 1 ≤ n) (hn10 : n ≤ 10) :
    parse_lot (a ++ "/" ++ toString n) =
      { type := "implicit_multi", base_lot := some a, count := (n : Int),
        expanded_lots := [a], hint := some ("+" ++ toString (n - 1)) } := by
  have hne : ¬ a.data.isEmpty = true := by
    intro h
    rw [List.isEmpty_iff] at h
    rw [show a.length = a.data.length from rfl, h] at hlen5
    simp at hlen5
  have ha : pyIsDigitL a.data = true := by
    unfold pyIsDigitL
    simp only [Bool.and_eq_true, Bool.not_eq_true']
    exact ⟨Bool.of_not_eq_true hne, hdig⟩
  have hdata : (a ++ "/" ++ toString n).data = a.data ++ '/' :: (toString n).data := by
    simp [String.data_append]
  have hkey : a ++ "/" ++ toString n = String.mk (a.data ++ '/' :: (toString n).data) := by
    rw [← hdata, mk_data]
  have hbn : pyIsDigitL (toString n).data = true := by
    interval_cases n <;> decide
  rw [hkey, parse_lot_slash a.data (toString n).data ha hbn, mk_data]
  have hval : digitsToNat (toString n).data = n := by
    interval_cases n <;> decide
  rw [hval]
  have hstr : toString ((n : Int) - 1) = toString (n - 1) := by
    interval_cases n <;> decide
  rw [hstr]

/-- C6 witness: the theorem applied at `a = "139865"`, `n = 2`. -/
theorem C6_witness :
    ("139865" : String).data.all (fun c => c.isDigit) = true ∧
    5 ≤ ("139865" : String).length ∧ ("139865" : String).length ≤ 6 ∧
    1 ≤ 2 ∧ 2 ≤ 10 ∧
    parse_lot ("139865" ++ "/" ++ toString 2) =
      { type := "implicit_multi", base_lot := some "139865", count := (2 : Int),
        expanded_lots := ["139865"], hint := some ("+" ++ toString (2 - 1)) } :=
  ⟨by decide, by decide, by decide, by decide, by decide,
    C6_implicit_multi_parse "139865" 2 (by decide) (by decide) (by decide)
      (by decide) (by decide)⟩

/-- C1 counterexample: `parse_lot "139912/139913"` is `implicit_multi` with
`expanded_lots = ["139912"]` and `count = 139913` — not `ExplicitMulti` with
members `["139912", "139913"]` and count 2 as the claim states. -/
theorem C1_counterexample :
    parse_lot "139912/139913" =
      { type := "implicit_multi", base_lot := some "139912", count := 139913,
        expanded_lots := ["139912"], hint := some "+139912" } ∧
    (parse_lot "139912/139913").type ≠ "explicit_multi" ∧
    (parse_lot "139912/139913").expanded_lots ≠ ["139912", "139913"] ∧
    (parse_lot "139912/139913").count ≠ 2 := by
  refine ⟨by decide, by decide, by decide, by decide⟩

/-- C1 amended: a slash token whose two parts are both purely numeric 5-6
digit strings parses to `implicit_multi` with `base_lot = p0`,
`expanded_lots = [p0]` and `count = int(p1)` (never `explicit_multi`); and
composing two found results that both resolved to supplier "Acme" with
internal lots "139912" and "139913" yields
`"Acme - Lot 139912 - Lot  139913"`. -/
theorem C1_slash_parse_and_compose (p0 p1 : String)
    (h0 : p0.data.all (fun c => c.isDigit) = true)
    (h0a : 5 ≤ p0.length) (h0b : p0.length ≤ 6)
    (h1 : p1.data.all (fun c => c.isDigit) = true)
    (h1a : 5 ≤ p1.length) (h1b : p1.length ≤ 6) :
    parse_lot (p0 ++ "/" ++ p1) =
      { type := "implicit_multi", base_lot := some p0,
        count := (digitsToNat p1.data : Int), expanded_lots := [p0],
        hint := some ("+" ++ toString ((digitsToNat p1.data : Int) - 1)) } ∧
    generate_annotation_text
      [{ cert_lot := "139912", found := true, supplier := some "Acme",
         internal_lot := some "139912" },
       { cert_lot := "139913", found := true, supplier := some "Acme",
         internal_lot := some "139913" }] none
      = "Acme - Lot 139912 - Lot  139913" := by
  constructor
  · have hpd : ∀ (s : String), 5 ≤ s.length →
        s.data.all (fun c => c.isDigit) = true → pyIsDigitL s.data = true := by
      intro s hs hsd
      unfold pyIsDigitL
      simp only [Bool.and_eq_true, Bool.not_eq_true']
      refine ⟨Bool.of_not_eq_true ?_, hsd⟩
      intro h
      rw [List.isEmpty_iff] at h
      rw [show s.length = s.data.length from rfl, h] at hs
      simp at hs
    have hdata : (p0 ++ "/" ++ p1).data = p0.data ++ '/' :: p1.data := by
      simp [String.data_append]
    have hkey : p0 ++ "/" ++ p1 = String.mk (p0.data ++ '/' :: p1.data) := by
      rw [← hdata, mk_data]
    rw [hkey, parse_lot_slash p0.data p1.data (hpd p0 h0a h0) (hpd p1 h1a h1),
      mk_data]
  · decide

/-- C1 witness: the amended theorem applied at `p0 = "139912"`,
`p1 = "139913"`. -/
theorem C1_witness :
    ("139912" : String).data.all (fun c => c.isDigit) = true ∧
    ("139913" : String).data.all (fun c => c.isDigit) = true ∧
    parse_lot ("139912" ++ "/" ++ "139913") =
      { type := "implicit_multi", base_lot := some "139912",
        count := (digitsToNat ("139913" : String).data : Int),
        expanded_lots := ["139912"],
        hint := some ("+" ++ toString ((digitsToNat ("139913" : String).data : Int) - 1)) } :=
  ⟨by decide, by decide,
    (C1_slash_parse_and_compose "139912" "139913" (by decide) (by decide)
      (by decide) (by decide) (by decide) (by decide)).1⟩

/-- C4 counterexample: the empty input is not reported as a failure —
`parse_lot` silently substitutes the default `single` descriptor
`{"type": "single", "base_lot": "", "count": 1, "expanded_lots": [""]}`. -/
theorem C4_counterexample :
    parse_lot "" =
      { type := "single", base_lot := some "", count := 1,
        expanded_lots := [""], hint := none } ∧
    (parse_lot "").type = "single" ∧ (parse_lot "").expanded_lots = [""] := by
  refine ⟨by decide, by decide, by decide⟩

/-- C4 amended: `parse_lot` never reports a failure; every empty or
whitespace-only raw token (which matches neither the dash nor the slash rule)
is coerced to the default `single` descriptor with `expanded_lots = [raw]`. -/
theorem C4_whitespace_single (raw : String)
    (hw : raw.data.all (fun c => c.isWhitespace) = true) :
    parse_lot raw = singleDesc raw := by
  have hall : ∀ c ∈ raw.data, c.isWhitespace = true := List.all_eq_true.mp hw
  have hd : '-' ∉ raw.data := fun m => absurd (hall '-' m) (by decide)
  have hs : '/' ∉ raw.data := fun m => absurd (hall '/' m) (by decide)
  unfold parse_lot
  rw [if_neg (fun hcon => hd hcon.1), if_neg hs]

/-- C4 witness: the amended theorem applied at the single-space input. -/
theorem C4_witness :
    (" " : String).data.all (fun c => c.isWhitespace) = true ∧
    parse_lot " " = singleDesc " " :=
  ⟨by decide, C4_whitespace_single " " (by decide)⟩

/-- C9 counterexample: `parse_lot "139865/0"` is an `implicit_multi`
descriptor whose `count` is 0, violating the claimed invariant `count ≥ 1`. -/
theorem C9_counterexample :
    (parse_lot "139865/0").type = "implicit_multi" ∧
    (parse_lot "139865/0").count = 0 ∧
    ¬ (1 ≤ (parse_lot "139865/0").count) := by
  refine ⟨by decide, by decide, by decide⟩

/-- C9 amended: every descriptor produced by `parse_lot` satisfies
`len(expanded_lots) = count` with `count ≥ 1` for `single` and
`explicit_multi`; for `implicit_multi`, `expanded_lots = [base_lot]` and
`count = int(part1) ≥ 0` (the slash suffix `"0"` makes it 0). -/
theorem C9_descriptor_invariants (raw : String) :
    ((parse_lot raw).type = "single" →
      (parse_lot raw).count = 1 ∧ (parse_lot raw).expanded_lots = [raw]) ∧
    ((parse_lot raw).type = "explicit_multi" →
      ((parse_lot raw).expanded_lots.length : Int) = (parse_lot raw).count ∧
      1 ≤ (parse_lot raw).count) ∧
    ((parse_lot raw).type = "implicit_multi" →
      (∃ b, (parse_lot raw).base_lot = some b ∧
        (parse_lot raw).expanded_lots = [b]) ∧
      0 ≤ (parse_lot raw).count) := by
  unfold parse_lot
  dsimp only
  split
  case isTrue h =>
    refine ⟨fun ht =>
        absurd (show ("explicit_multi" : String) = "single" from ht) (by decide),
      fun _ => ⟨rfl, ?_⟩,
      fun ht =>
        absurd (show ("explicit_multi" : String) = "implicit_multi" from ht) (by decide)⟩
    have hne : pySplit '-' raw.data ≠ [] := pySplit_ne_nil '-' raw.data
    have hlen : 1 ≤ ((pySplit '-' raw.data).map (fun p => String.mk p)).length := by
      rw [List.length_map]
      exact List.length_pos.mpr hne
    show (1 : Int) ≤ (((pySplit '-' raw.data).map (fun p => String.mk p)).length : Int)
    exact_mod_cast hlen
  case isFalse h1 =>
    split
    case isTrue h2 =>
      split
      next =>
        split
        case isTrue hd =>
          exact ⟨fun ht =>
              absurd (show ("implicit_multi" : String) = "single" from ht) (by decide),
            fun ht =>
              absurd (show ("implicit_multi" : String) = "explicit_multi" from ht) (by decide),
            fun _ => ⟨⟨_, rfl, rfl⟩, Int.natCast_nonneg _⟩⟩
        case isFalse hd =>
          exact ⟨fun _ => ⟨rfl, rfl⟩,
            fun ht =>
              absurd (show ("single" : String) = "explicit_multi" from ht) (by decide),
            fun ht =>
              absurd (show ("single" : String) = "implicit_multi" from ht) (by decide)⟩
      next =>
        exact ⟨fun _ => ⟨rfl, rfl⟩,
          fun ht =>
            absurd (show ("single" : String) = "explicit_multi" from ht) (by decide),
          fun ht =>
            absurd (show ("single" : String) = "implicit_multi" from ht) (by decide)⟩
    case isFalse h2 =>
      exact ⟨fun _ => ⟨rfl, rfl⟩,
        fun ht =>
          absurd (show ("single" : String) = "explicit_multi" from ht) (by decide),
        fun ht =>
          absurd (show ("single" : String) = "implicit_multi" from ht) (by decide)⟩

/-- C9 witness: the amended theorem applied at `"139865/2"`, discharging the
`implicit_multi` implication there. -/
theorem C9_witness :
    (parse_lot "139865/2").type = "implicit_multi" ∧
    ((∃ b, (parse_lot "139865/2").base_lot = some b ∧
        (parse_lot "139865/2").expanded_lots = [b]) ∧
      0 ≤ (parse_lot "139865/2").count) :=
  ⟨by decide, (C9_descriptor_invariants "139865/2").2.2 (by decide)⟩

/-- C10: `parse_lot` is total, and every input matching neither the dash rule
nor the slash rule falls through to the `single` descriptor with
`expanded_lots = [raw]`, `count = 1` and no annotation hint. -/
theorem C10_parser_total_fallthrough (raw : String)
    (hdash : dashRuleHolds raw.data = false)
    (hslash : slashRuleHolds raw.data = false) :
    parse_lot raw = singleDesc raw := by
  unfold dashRuleHolds at hdash
  unfold slashRuleHolds at hslash
  rw [Bool.and_eq_false_iff] at hdash hslash
  unfold parse_lot
  dsimp only
  split
  case isTrue h =>
    exfalso
    rcases hdash with hd | hd
    · rw [decide_eq_false_iff_not] at hd
      exact hd h.1
    · rw [h.2] at hd
      exact Bool.noConfusion hd
  case isFalse h1 =>
    split
    case isTrue h2 =>
      have hmatch :
          (match pySplit '/' raw.data with
           | [p0, p1] => pyIsDigitL p0 && pyIsDigitL p1
           | _ => false) = false := by
        rcases hslash with hs | hs
        · rw [decide_eq_false_iff_not] at hs
          exact absurd h2 hs
        · exact hs
      split
      next =>
        rename_i p0 p1 heq
        rw [heq] at hmatch
        have hb : (pyIsDigitL p0 && pyIsDigitL p1) = false := hmatch
        rw [if_neg (by simp [hb])]
      all_goals rfl
    case isFalse h2 => rfl

/-- C10 witness: the theorem applied at the alphanumeric token `"ABC12X"`. -/
theorem C10_witness :
    dashRuleHolds ("ABC12X" : String).data = false ∧
    slashRuleHolds ("ABC12X" : String).data = false ∧
    parse_lot "ABC12X" = singleDesc "ABC12X" :=
  ⟨by decide, by decide, C10_parser_total_fallthrough "ABC12X" (by decide) (by decide)⟩

theorem search_lot_miss (cert : String) (sheets : List (String × Option (List ErpRow)))
    (h : ∀ s ∈ sheets, search_lot_in_sheet cert s.2 = none) :
    search_lot sheets cert = { cert_lot := cert, found := false } := by
  induction sheets with
  | nil => rfl
  | cons st rest ih =>
    obtain ⟨name, tbl⟩ := st
    show search_lot ((name, tbl) :: rest) cert = _
    unfold search_lot
    rw [h (name, tbl) (List.mem_cons_self _ _)]
    exact ih (fun s hs => h s (List.mem_cons_of_mem _ hs))

theorem search_lot_hit (cert : String) (pre : List (String × Option (List ErpRow)))
    (name : String) (tbl : Option (List ErpRow))
    (rest : List (String × Option (List ErpRow))) (row : ErpRow)
    (hpre : ∀ s ∈ pre, search_lot_in_sheet cert s.2 = none)
    (hrow : search_lot_in_sheet cert tbl = some row) :
    search_lot (pre ++ (name, tbl) :: rest) cert =
      { cert_lot := cert, found := true, supplier := some row.supplier,
        internal_lot := some row.internal_lot, sheet_found := some name } := by
  induction pre with
  | nil =>
    show search_lot ((name, tbl) :: rest) cert = _
    unfold search_lot
    rw [hrow]
  | cons st pre' ih =>
    obtain ⟨n2, t2⟩ := st
    show search_lot ((n2, t2) :: (pre' ++ (name, tbl) :: rest)) cert = _
    unfold search_lot
    rw [hpre (n2, t2) (List.mem_cons_self _ _)]
    exact ih (fun s hs => hpre s (List.mem_cons_of_mem _ hs))

/-- C2: `search_lot` walks the sheets in priority order; the first sheet on
which `search_lot_in_sheet` yields a row determines `found = true`,
`supplier`, `internal_lot` and `sheet_found`, and the remaining sheets are
not consulted; if every sheet yields no row, the result has `found = false`
and `supplier`, `internal_lot`, `sheet_found` all `None`.  Being a total
function, it returns this value rather than raising. -/
theorem C2_resolver_first_match (sheets : List (String × Option (List ErpRow)))
    (cert : String) :
    ((∀ s ∈ sheets, search_lot_in_sheet cert s.2 = none) →
      search_lot sheets cert =
        { cert_lot := cert, found := false, supplier := none,
          internal_lot := none, sheet_found := none }) ∧
    (∀ (pre rest : List (String × Option (List ErpRow))) (name : String)
        (tbl : Option (List ErpRow)) (row : ErpRow),
      sheets = pre ++ (name, tbl) :: rest →
      (∀ s ∈ pre, search_lot_in_sheet cert s.2 = none) →
      search_lot_in_sheet cert tbl = some row →
      search_lot sheets cert =
        { cert_lot := cert, found := true, supplier := some row.supplier,
          internal_lot := some row.internal_lot, sheet_found := some name }) := by
  constructor
  · exact search_lot_miss cert sheets
  · intro pre rest name tbl row hs hpre hrow
    subst hs
    exact search_lot_hit cert pre name tbl rest row hpre hrow

/-- C2 witness: two sheets, the first missing the lot, the second holding it. -/
theorem C2_witness :
    (∀ s ∈ [(("2026" : String), some ([] : List ErpRow))],
      search_lot_in_sheet "139912" s.2 = none) ∧
    search_lot_in_sheet "139912" (some [⟨"139912", "Acme", "551"⟩]) =
      some ⟨"139912", "Acme", "551"⟩ ∧
    search_lot [("2026", some []), ("2025", some [⟨"139912", "Acme", "551"⟩])] "139912" =
      { cert_lot := "139912", found := true, supplier := some "Acme",
        internal_lot := some "551", sheet_found := some "2025" } :=
  ⟨by decide, by decide,
    (C2_resolver_first_match
        [("2026", some []), ("2025", some [⟨"139912", "Acme", "551"⟩])] "139912").2
      [("2026", some [])] [] "2025" (some [⟨"139912", "Acme", "551"⟩])
      ⟨"139912", "Acme", "551"⟩ rfl (by decide) (by decide)⟩

theorem find?_congr {α : Type} (p q : α → Bool) (l : List α)
    (h : ∀ x ∈ l, p x = q x) : l.find? p = l.find? q := by
  induction l with
  | nil => rfl
  | cons a l ih =>
    by_cases hqa : q a = true
    · rw [List.find?_cons_of_pos _ ((h a (List.mem_cons_self _ _)).trans hqa),
        List.find?_cons_of_pos _ hqa]
    · have hpa : ¬ p a = true := fun hp =>
        hqa ((h a (List.mem_cons_self _ _)).symm.trans hp)
      rw [List.find?_cons_of_neg _ hpa, List.find?_cons_of_neg _ hqa]
      exact ih (fun x hx => h x (List.mem_cons_of_mem _ hx))

/-- C8 counterexample: against a table whose key column contains "139912" but
also the key "0139912", the queries "0139912" and "139912" resolve to
different rows (each hits its own exact match), so the lookup is not
leading-zero insensitive on such tables. -/
theorem C8_counterexample :
    search_lot_in_sheet "0139912"
        (some [⟨"0139912", "S1", "A"⟩, ⟨"139912", "S2", "B"⟩]) =
      some ⟨"0139912", "S1", "A"⟩ ∧
    search_lot_in_sheet "139912"
        (some [⟨"0139912", "S1", "A"⟩, ⟨"139912", "S2", "B"⟩]) =
      some ⟨"139912", "S2", "B"⟩ ∧
    search_lot_in_sheet "0139912"
        (some [⟨"0139912", "S1", "A"⟩, ⟨"139912", "S2", "B"⟩]) ≠
      search_lot_in_sheet "139912"
        (some [⟨"0139912", "S1", "A"⟩, ⟨"139912", "S2", "B"⟩]) := by
  refine ⟨by decide, by decide, by decide⟩

/-- C8 amended: against a table whose normalized key column contains "139912"
and no other key whose leading-zero-stripped form is "139912", the queries
"0139912" and "139912" resolve to the same row; in general the exact match on
the normalized key is tried first, and only if it fails is the match with
leading zeros stripped from both sides attempted, otherwise `None`. -/
theorem C8_leading_zero_lookup (tbl : List ErpRow)
    (huniq : ∀ r ∈ tbl, lstrip0 r.cert = "139912" → r.cert = "139912")
    (hmem : ∃ r ∈ tbl, r.cert = "139912") :
    search_lot_in_sheet "0139912" (some tbl) = search_lot_in_sheet "139912" (some tbl) ∧
    (search_lot_in_sheet "139912" (some tbl)).isSome = true ∧
    (∀ (q : String) (t : List ErpRow) (r : ErpRow),
      t.find? (fun row => row.cert = pyStrip q) = some r →
      search_lot_in_sheet q (some t) = some r) ∧
    (∀ (q : String) (t : List ErpRow),
      t.find? (fun row => row.cert = pyStrip q) = none →
      search_lot_in_sheet q (some t) =
        t.find? (fun row => lstrip0 row.cert = lstrip0 (pyStrip q))) := by
  have hsome : (tbl.find? (fun row => row.cert = ("139912" : String))).isSome = true := by
    rw [List.find?_isSome]
    obtain ⟨r, hr, he⟩ := hmem
    exact ⟨r, hr, by simp [he]⟩
  obtain ⟨r0, hr0⟩ := Option.isSome_iff_exists.mp hsome
  have hex0 : tbl.find? (fun row => row.cert = ("0139912" : String)) = none := by
    rw [List.find?_eq_none]
    intro r hr
    simp only [decide_eq_true_eq]
    intro hceq
    have h1 : lstrip0 r.cert = "139912" := by rw [hceq]; decide
    have h2 := huniq r hr h1
    rw [hceq] at h2
    exact absurd h2 (by decide)
  have hcong :
      tbl.find? (fun row => lstrip0 row.cert = lstrip0 ("0139912" : String)) =
        tbl.find? (fun row => row.cert = ("139912" : String)) := by
    apply find?_congr
    intro r hr
    have hiff : (lstrip0 r.cert = ("139912" : String)) ↔ r.cert = "139912" :=
      ⟨huniq r hr, fun e => by rw [e]; decide⟩
    rw [show lstrip0 ("0139912" : String) = "139912" from by decide]
    exact decide_eq_decide.mpr hiff
  have lhs_eq : search_lot_in_sheet "0139912" (some tbl) = some r0 := by
    unfold search_lot_in_sheet
    dsimp only
    rw [show pyStrip "0139912" = "0139912" from by decide, hex0, hcong, hr0]
  have rhs_eq : search_lot_in_sheet "139912" (some tbl) = some r0 := by
    unfold search_lot_in_sheet
    dsimp only
    rw [show pyStrip "139912" = "139912" from by decide, hr0]
  refine ⟨by rw [lhs_eq, rhs_eq], by rw [rhs_eq]; rfl, ?_, ?_⟩
  · intro q t r h
    unfold search_lot_in_sheet
    dsimp only
    rw [h]
  · intro q t h
    unfold search_lot_in_sheet
    dsimp only
    rw [h]

/-- C8 witness: the amended theorem applied at the one-row table keyed by
"139912". -/
theorem C8_witness :
    (∀ r ∈ [(⟨"139912", "Acme", "551"⟩ : ErpRow)],
      lstrip0 r.cert = "139912" → r.cert = "139912") ∧
    (∃ r ∈ [(⟨"139912", "Acme", "551"⟩ : ErpRow)], r.cert = "139912") ∧
    search_lot_in_sheet "0139912" (some [⟨"139912", "Acme", "551"⟩]) =
      search_lot_in_sheet "139912" (some [⟨"139912", "Acme", "551"⟩]) :=
  ⟨by decide, by decide,
    (C8_leading_zero_lookup [⟨"139912", "Acme", "551"⟩] (by decide) (by decide)).1⟩

/-- C3: the parser computes `annotation_hint = "+1"` for `"139865/2"`, and the
composer would append a hint passed to it, but the pipeline drops the hint:
`process_json` puts no `annotation_hint` key into `lot_info` or the extraction
result, so `process_certificate` passes `None` to the composer and the
resolved result carries `annotation_hint = None`; the composed annotation is
`"Delta - Lot  139865"`, not `"Delta - Lot  139865 +1"` as specified. -/
theorem C3_hint_dropped :
    (parse_lot "139865/2").hint = some "+1" ∧
    (process_certificate [("2025", some [⟨"139865", "Delta", "139865"⟩])]
        (json_extraction_result "139865/2")).lot_results =
      [{ cert_lot := "139865", found := true, supplier := some "Delta",
         internal_lot := some "139865", sheet_found := some "2025",
         type := some "implicit_multi", hint := none, count := some 1 }] ∧
    (process_certificate [("2025", some [⟨"139865", "Delta", "139865"⟩])]
        (json_extraction_result "139865/2")).annotation_text =
      "Delta - Lot  139865" ∧
    (process_certificate [("2025", some [⟨"139865", "Delta", "139865"⟩])]
        (json_extraction_result "139865/2")).annotation_text ≠
      "Delta - Lot  139865 +1" ∧
    generate_annotation_text
      [{ cert_lot := "139865", found := true, supplier := some "Delta",
         internal_lot := some "139865", sheet_found := some "2025",
         type := some "implicit_multi", hint := none, count := some 1 }]
      (some "+1") = "Delta - Lot  139865 +1" := by
  refine ⟨by decide, by decide, by decide, by decide, by decide⟩

/-- C5 counterexample: for the unresolved input "999999" the full pipeline
composes the marker-prefixed string
`"غير مسجل في النظام / 999999 N/A"`, which is not the claimed exact value
`"999999 N/A"`. -/
theorem C5_counterexample :
    (process_certificate [("2025", some [])]
        (json_extraction_result "999999")).annotation_text =
      "غير مسجل في النظام / 999999 N/A" ∧
    (process_certificate [("2025", some [])]
        (json_extraction_result "999999")).annotation_text ≠
      "999999 N/A" := by
  refine ⟨by decide, by decide⟩

/-- C5 amended: when no result is found, the composed string is the Arabic
"not registered in the system" marker, a slash, all `cert_lot` values joined
by `" - "`, and the `" N/A"` suffix. -/
theorem C5_none_found_marker (rs : List LotResult) (hint : Option String)
    (hne : rs ≠ []) (hnf : ∀ r ∈ rs, r.found = false) :
    generate_annotation_text rs hint =
      "غير مسجل في النظام / " ++ pyJoin " - " (rs.map (fun r => r.cert_lot)) ++ " N/A" := by
  have h1 : ¬ (rs.isEmpty = true) := by
    simpa [List.isEmpty_iff] using hne
  have h2 : (!(rs.any (fun r => r.found))) = true := by
    simp only [Bool.not_eq_true', List.any_eq_false]
    intro r hr
    simp [hnf r hr]
  unfold generate_annotation_text
  rw [if_neg h1, if_pos h2]

/-- C5 witness: the amended theorem applied at the single unresolved lot
"999999". -/
theorem C5_witness :
    ([({ cert_lot := "999999", found := false } : LotResult)] ≠ []) ∧
    (∀ r ∈ [({ cert_lot := "999999", found := false } : LotResult)],
      r.found = false) ∧
    generate_annotation_text [{ cert_lot := "999999", found := false }] none =
      "غير مسجل في النظام / " ++
        pyJoin " - "
          (List.map (fun r => r.cert_lot)
            [({ cert_lot := "999999", found := false } : LotResult)]) ++ " N/A" :=
  ⟨by decide, by decide, C5_none_found_marker _ none (by decide) (by decide)⟩

/-- A string free of the segment-separator character of the composer. -/
abbrev noBar (s : String) : Prop := '|' ∉ s.data

/-- The number of top-level segments of a composed string: one more than the
number of separator characters, which for strings assembled from
separator-free fields joined by `" | "` is exactly the number of joined
segments. -/
def numSegments (s : String) : Nat := 1 + s.data.count '|'

/-- The stripped suppliers of the found results, in input order. -/
def foundSuppliers (rs : List LotResult) : List String :=
  (rs.filter (fun r => r.found)).map (fun r => pyStrip (r.supplier.getD ""))

/-- The number of distinct found suppliers (after stripping). -/
def distinctFoundSuppliers (rs : List LotResult) : Nat :=
  (foundSuppliers rs).dedup.length

/-- Key insertion as performed by the Python dict `supplier_groups`: a new
key goes to the end, an existing key changes nothing. -/
def insertKey (ks : List String) (s : String) : List String :=
  if s ∈ ks then ks else ks ++ [s]

theorem strCount_append (a b : String) (c : Char) :
    (a ++ b).data.count c = a.data.count c + b.data.count c := by
  rw [String.data_append, List.count_append]

theorem noBar_append (a b : String) (ha : noBar a) (hb : noBar b) :
    noBar (a ++ b) := by
  unfold noBar at ha hb ⊢
  rw [String.data_append, List.mem_append]
  rintro (h | h)
  · exact ha h
  · exact hb h

theorem noBar_pyStrip (s : String) (h : noBar s) : noBar (pyStrip s) := by
  intro hm
  apply h
  simp only [pyStrip] at hm
  rw [List.mem_reverse] at hm
  have h1 := (List.dropWhile_sublist (l := (s.data.dropWhile Char.isWhitespace).reverse)
    (p := Char.isWhitespace)).mem hm
  rw [List.mem_reverse] at h1
  exact (List.dropWhile_sublist (l := s.data) (p := Char.isWhitespace)).mem h1

theorem noBar_pyJoin (sep : String) (parts : List String)
    (hsep : noBar sep) (h : ∀ p ∈ parts, noBar p) : noBar (pyJoin sep parts) := by
  induction parts with
  | nil =>
    intro hm
    simp [pyJoin] at hm
  | cons x xs ih =>
    cases xs with
    | nil => exact h x (List.mem_cons_self _ _)
    | cons y ys =>
      show noBar (x ++ sep ++ pyJoin sep (y :: ys))
      exact noBar_append _ _
        (noBar_append _ _ (h x (List.mem_cons_self _ _)) hsep)
        (ih (fun p hp => h p (List.mem_cons_of_mem _ hp)))

theorem count_noBar (s : String) (h : noBar s) : s.data.count '|' = 0 :=
  List.count_eq_zero.mpr h

theorem count_pyJoin_noBar (parts : List String)
    (h : ∀ p ∈ parts, noBar p) (hne : parts ≠ []) :
    (pyJoin " | " parts).data.count '|' = parts.length - 1 := by
  induction parts with
  | nil => exact absurd rfl hne
  | cons x xs ih =>
    cases xs with
    | nil =>
      show (pyJoin " | " [x]).data.count '|' = 0
      exact count_noBar x (h x (List.mem_cons_self _ _))
    | cons y ys =>
      show (x ++ " | " ++ pyJoin " | " (y :: ys)).data.count '|' = (y :: ys).length
      rw [strCount_append, strCount_append,
        count_noBar x (h x (List.mem_cons_self _ _)),
        ih (fun p hp => h p (List.mem_cons_of_mem _ hp)) (by simp)]
      simp
      omega

theorem addToGroups_keys (groups : List (String × List String)) (sup lot : String) :
    (addToGroups groups sup lot).map Prod.fst = insertKey (groups.map Prod.fst) sup := by
  unfold addToGroups insertKey
  by_cases h : sup ∈ groups.map Prod.fst
  · rw [if_pos h, if_pos h, List.map_map]
    congr 1
    funext g
    by_cases hg : g.1 = sup <;> simp [hg]
  · rw [if_neg h, if_neg h, List.map_append]
    rfl

theorem foldl_insertKey_nodup (l : List String) : ∀ ks : List String,
    ks.Nodup → (l.foldl insertKey ks).Nodup := by
  induction l with
  | nil => exact fun ks h => h
  | cons a l ih =>
    intro ks h
    show (l.foldl insertKey (insertKey ks a)).Nodup
    apply ih
    unfold insertKey
    by_cases ha : a ∈ ks
    · rw [if_pos ha]
      exact h
    · rw [if_neg ha]
      simp [List.nodup_append, h, ha]

theorem foldl_insertKey_toFinset (l : List String) : ∀ ks : List String,
    (l.foldl insertKey ks).toFinset = ks.toFinset ∪ l.toFinset := by
  induction l with
  | nil => intro ks; simp
  | cons a l ih =>
    intro ks
    show (l.foldl insertKey (insertKey ks a)).toFinset = _
    rw [ih]
    have hik : (insertKey ks a).toFinset = insert a ks.toFinset := by
      unfold insertKey
      by_cases ha : a ∈ ks
      · rw [if_pos ha]
        exact (Finset.insert_eq_self.mpr (List.mem_toFinset.mpr ha)).symm
      · rw [if_neg ha]
        rw [List.toFinset_append]
        simp only [List.toFinset_cons, List.toFinset_nil, insert_emptyc_eq]
        rw [Finset.union_comm, Finset.insert_eq]
    rw [hik, List.toFinset_cons, Finset.insert_union, Finset.union_insert]

theorem foldl_insertKey_length (l : List String) :
    (l.foldl insertKey []).length = l.dedup.length := by
  have h1 : (l.foldl insertKey []).Nodup := foldl_insertKey_nodup l [] List.nodup_nil
  have h3 := List.toFinset_card_of_nodup h1
  rw [foldl_insertKey_toFinset l []] at h3
  simp only [List.toFinset_nil, Finset.empty_union] at h3
  rw [← List.card_toFinset, h3]

theorem groupResults_notFound_aux (rs : List LotResult) : ∀ acc,
    (rs.foldl gStep acc).2 =
      acc.2 ++ (rs.filter (fun r => !r.found)).map (fun r => r.cert_lot) := by
  induction rs with
  | nil => intro acc; simp
  | cons r rs ih =>
    intro acc
    show (rs.foldl gStep (gStep acc r)).2 = _
    rw [ih]
    unfold gStep
    by_cases hf : r.found = true
    · rw [if_pos hf]
      simp [List.filter_cons, hf]
    · have hf' : r.found = false := by
        cases hx : r.found
        · rfl
        · exact absurd hx hf
      rw [if_neg hf]
      simp [List.filter_cons, hf', List.append_assoc]

theorem groupResults_keys_aux (rs : List LotResult) : ∀ acc,
    ((rs.foldl gStep acc).1).map Prod.fst =
      (foundSuppliers rs).foldl insertKey (acc.1.map Prod.fst) := by
  induction rs with
  | nil => intro acc; rfl
  | cons r rs ih =>
    intro acc
    show ((rs.foldl gStep (gStep acc r)).1).map Prod.fst = _
    rw [ih]
    unfold foundSuppliers gStep
    by_cases hf : r.found = true
    · rw [if_pos hf]
      simp only [List.filter_cons, hf, if_pos, List.map_cons, List.foldl_cons]
      rw [addToGroups_keys]
    · have hf' : r.found = false := by
        cases hx : r.found
        · rfl
        · exact absurd hx hf
      rw [if_neg hf]
      simp only [List.filter_cons, hf']
      rfl

theorem groupResults_members_aux (P Q : String → Prop) (rs : List LotResult) : ∀ acc,
    (∀ g ∈ acc.1, P g.1 ∧ ∀ l ∈ g.2, Q l) →
    (∀ r ∈ rs, r.found = true →
      P (pyStrip (r.supplier.getD "")) ∧ Q (pyStrip (r.internal_lot.getD ""))) →
    ∀ g ∈ (rs.foldl gStep acc).1, P g.1 ∧ ∀ l ∈ g.2, Q l := by
  induction rs with
  | nil => exact fun acc hacc _ => hacc
  | cons r rs ih =>
    intro acc hacc hrs
    show ∀ g ∈ (rs.foldl gStep (gStep acc r)).1, _
    apply ih
    · by_cases hf : r.found = true
      · have hr := hrs r (List.mem_cons_self _ _) hf
        unfold gStep
        rw [if_pos hf]
        intro g hg
        unfold addToGroups at hg
        by_cases hmem : pyStrip (r.supplier.getD "") ∈ acc.1.map Prod.fst
        · rw [if_pos hmem] at hg
          obtain ⟨g0, hg0, rfl⟩ := List.mem_map.mp hg
          by_cases hg1 : g0.1 = pyStrip (r.supplier.getD "")
          · rw [if_pos hg1]
            refine ⟨(hacc g0 hg0).1, ?_⟩
            intro l hl
            rw [List.mem_append] at hl
            rcases hl with hl | hl
            · exact (hacc g0 hg0).2 l hl
            · rw [List.mem_singleton] at hl
              subst hl
              exact hr.2
          · rw [if_neg hg1]
            exact hacc g0 hg0
        · rw [if_neg hmem] at hg
          rw [List.mem_append] at hg
          rcases hg with hg | hg
          · exact hacc g hg
          · rw [List.mem_singleton] at hg
            subst hg
            refine ⟨hr.1, ?_⟩
            intro l hl
            rw [List.mem_singleton] at hl
            subst hl
            exact hr.2
      · unfold gStep
        rw [if_neg hf]
        exact hacc
    · exact fun r' hr' => hrs r' (List.mem_cons_of_mem _ hr')

theorem groupResults_keys (rs : List LotResult) :
    ((groupResults rs).1).map Prod.fst = (foundSuppliers rs).foldl insertKey [] :=
  groupResults_keys_aux rs ([], [])

theorem groupResults_length (rs : List LotResult) :
    (groupResults rs).1.length = distinctFoundSuppliers rs := by
  have h := congrArg List.length (groupResults_keys rs)
  rw [List.length_map] at h
  rw [h, foldl_insertKey_length]
  rfl

theorem groupResults_snd (rs : List LotResult) :
    (groupResults rs).2 = (rs.filter (fun r => !r.found)).map (fun r => r.cert_lot) := by
  have h := groupResults_notFound_aux rs ([], [])
  simpa using h

theorem annotationParts_length (rs : List LotResult) (hint : Option String) :
    (annotationParts rs hint).length =
      (groupResults rs).1.length +
        (if (groupResults rs).2.isEmpty then 0 else 1) := by
  unfold annotationParts
  dsimp only
  rw [List.length_append]
  congr 1
  · by_cases hl : (groupResults rs).1.length = 1
    · rw [if_pos hl]
      by_cases hll : ((groupResults rs).1.headD ("", [])).2.length = 1
      · rw [if_pos hll]
        simp [hl]
      · rw [if_neg hll]
        simp [hl]
    · rw [if_neg hl]
      exact List.length_map _ _
  · by_cases h2 : (groupResults rs).2.isEmpty <;> simp [h2]

theorem annotationParts_noBar (rs : List LotResult) (hint : Option String)
    (hmem : ∀ g ∈ (groupResults rs).1, noBar g.1 ∧ ∀ l ∈ g.2, noBar l)
    (hnf : ∀ c ∈ (groupResults rs).2, noBar c)
    (hhint : ∀ h ∈ hint, noBar h) :
    ∀ p ∈ annotationParts rs hint, noBar p := by
  intro p hp
  unfold annotationParts at hp
  dsimp only at hp
  rw [List.mem_append] at hp
  rcases hp with hp | hp
  · by_cases hl : (groupResults rs).1.length = 1
    · rw [if_pos hl] at hp
      obtain ⟨g, hg⟩ := List.length_eq_one.mp hl
      rw [hg] at hp
      have hgm : noBar g.1 ∧ ∀ l ∈ g.2, noBar l :=
        hmem g (by rw [hg]; exact List.mem_singleton_self g)
      simp only [List.headD_cons] at hp
      by_cases hgl : g.2.length = 1
      · rw [if_pos hgl] at hp
        rw [List.mem_singleton] at hp
        subst hp
        apply noBar_append
        · exact noBar_append _ _ hgm.1 (by decide)
        · obtain ⟨l0, hl0⟩ := List.length_eq_one.mp hgl
          have hl0m : noBar l0 := hgm.2 l0 (by rw [hl0]; exact List.mem_singleton_self _)
          rw [hl0]
          simp only [List.headD_cons]
          cases hint with
          | none => exact hl0m
          | some h =>
            dsimp only
            by_cases hh : h.isEmpty
            · rw [if_pos hh]
              exact hl0m
            · rw [if_neg hh]
              exact noBar_append _ _ (noBar_append _ _ hl0m (by decide)) (hhint h rfl)
      · rw [if_neg hgl] at hp
        rw [List.mem_singleton] at hp
        subst hp
        exact noBar_append _ _ (noBar_append _ _ hgm.1 (by decide))
          (noBar_pyJoin _ _ (by decide) hgm.2)
    · rw [if_neg hl] at hp
      obtain ⟨g, hg, rfl⟩ := List.mem_map.mp hp
      have hgm := hmem g hg
      unfold renderGroup
      by_cases hgl : g.2.length = 1
      · rw [if_pos hgl]
        apply noBar_append
        · exact noBar_append _ _ hgm.1 (by decide)
        · obtain ⟨l0, hl0⟩ := List.length_eq_one.mp hgl
          rw [hl0]
          simp only [List.headD_cons]
          exact hgm.2 l0 (by rw [hl0]; exact List.mem_singleton_self _)
      · rw [if_neg hgl]
        exact noBar_append _ _ (noBar_append _ _ hgm.1 (by decide))
          (noBar_pyJoin _ _ (by decide) hgm.2)
  · by_cases h2 : (groupResults rs).2.isEmpty
    · rw [if_pos h2] at hp
      simp at hp
    · rw [if_neg h2] at hp
      rw [List.mem_singleton] at hp
      subst hp
      exact noBar_append _ _ (noBar_pyJoin _ _ (by decide) hnf) (by decide)

/-- C7 counterexample: for the empty result list the composed output is the
sentinel string, which is one segment, while the claimed formula (distinct
found suppliers plus a not-found indicator) gives zero. -/
theorem C7_counterexample :
    numSegments (generate_annotation_text [] none) = 1 ∧
    distinctFoundSuppliers ([] : List LotResult) +
      (if ∃ r ∈ ([] : List LotResult), r.found = false then 1 else 0) = 0 := by
  refine ⟨by decide, by decide⟩

/-- C7 amended: for every nonempty list of resolution results whose
`cert_lot`, `supplier` and `internal_lot` fields (and the hint argument) do
not contain the separator character of `" | "`, the number of top-level
segments of the composed string equals the number of distinct found suppliers
plus one when a not-found lot exists; a lone segment carries no separator at
all. -/
theorem C7_segment_count (rs : List LotResult) (hint : Option String)
    (hne : rs ≠ [])
    (hfields : ∀ r ∈ rs, noBar r.cert_lot ∧ noBar (r.supplier.getD "") ∧
      noBar (r.internal_lot.getD ""))
    (hhint : ∀ h ∈ hint, noBar h) :
    numSegments (generate_annotation_text rs hint) =
      distinctFoundSuppliers rs +
        (if ∃ r ∈ rs, r.found = false then 1 else 0) := by
  have h1 : ¬ (rs.isEmpty = true) := by simpa [List.isEmpty_iff] using hne
  unfold generate_annotation_text
  rw [if_neg h1]
  by_cases hany : rs.any (fun r => r.found) = true
  · -- at least one found result
    rw [if_neg (by simp [hany])]
    dsimp only
    have hgkeys := groupResults_length rs
    have hsnd := groupResults_snd rs
    have hfs_ne : foundSuppliers rs ≠ [] := by
      obtain ⟨r, hr, hrf⟩ := List.any_eq_true.mp hany
      unfold foundSuppliers
      simp only [ne_eq, List.map_eq_nil_iff, List.filter_eq_nil_iff]
      push_neg
      exact ⟨r, hr, by simp [hrf]⟩
    have hdpos : 0 < distinctFoundSuppliers rs := by
      unfold distinctFoundSuppliers
      exact List.length_pos.mpr (by rw [ne_eq, List.dedup_eq_nil]; exact hfs_ne)
    have hmem : ∀ g ∈ (groupResults rs).1, noBar g.1 ∧ ∀ l ∈ g.2, noBar l := by
      apply groupResults_members_aux noBar noBar rs ([], [])
      · intro g hg
        simp at hg
      · intro r hr _
        exact ⟨noBar_pyStrip _ (hfields r hr).2.1, noBar_pyStrip _ (hfields r hr).2.2⟩
    have hplen := annotationParts_length rs hint
    have hnoBar : ∀ p ∈ annotationParts rs hint, noBar p := by
      apply annotationParts_noBar rs hint hmem ?_ hhint
      rw [hsnd]
      intro c hc
      obtain ⟨r, hr, hre⟩ := List.mem_map.mp hc
      rw [← hre]
      exact (hfields r (List.mem_of_mem_filter hr)).1
    have hind : (if ∃ r ∈ rs, r.found = false then 1 else 0) =
        (if (groupResults rs).2.isEmpty then 0 else 1) := by
      by_cases hx : ∃ r ∈ rs, r.found = false
      · rw [if_pos hx]
        obtain ⟨r, hr, hrf⟩ := hx
        have hn : (groupResults rs).2 ≠ [] := by
          rw [hsnd]
          simp only [ne_eq, List.map_eq_nil_iff, List.filter_eq_nil_iff]
          push_neg
          exact ⟨r, hr, by simp [hrf]⟩
        rw [if_neg (by simpa [List.isEmpty_iff] using hn)]
      · rw [if_neg hx]
        push_neg at hx
        have hz : (groupResults rs).2 = [] := by
          rw [hsnd]
          rw [List.filter_eq_nil_iff.mpr, List.map_nil]
          intro r hr
          have := hx r hr
          simp only [Bool.not_eq_true']
          cases hq : r.found
          · exact absurd hq this
          · simp
        rw [if_pos (by simp [List.isEmpty_iff, hz])]
    rw [hind, ← hgkeys, show (groupResults rs).1.length +
        (if (groupResults rs).2.isEmpty then 0 else 1) =
        (annotationParts rs hint).length from hplen.symm]
    have hpne : annotationParts rs hint ≠ [] := by
      intro h0
      have hq := hplen
      rw [h0] at hq
      simp only [List.length_nil] at hq
      rw [hgkeys] at hq
      by_cases he : (groupResults rs).2.isEmpty
      · simp [he] at hq
        omega
      · simp [he] at hq
    by_cases hgt : (annotationParts rs hint).length > 1
    · rw [if_pos hgt]
      unfold numSegments
      rw [count_pyJoin_noBar _ hnoBar hpne]
      omega
    · rw [if_neg hgt]
      have hlen1 : (annotationParts rs hint).length = 1 := by
        have := List.length_pos.mpr hpne
        omega
      obtain ⟨p, hp⟩ := List.length_eq_one.mp hlen1
      rw [hp]
      simp only [List.headD_cons]
      unfold numSegments
      rw [count_noBar p (hnoBar p (by rw [hp]; exact List.mem_singleton_self _))]
      rfl
  · -- no found result
    have hanyf : rs.any (fun r => r.found) = false := by
      cases hx : rs.any (fun r => r.found)
      · rfl
      · exact absurd hx hany
    rw [if_pos (by rw [hanyf]; rfl)]
    have hflt : ∀ r ∈ rs, ¬ (r.found = true) := fun r hr =>
      List.any_eq_false.mp hanyf r hr
    have hdist : distinctFoundSuppliers rs = 0 := by
      unfold distinctFoundSuppliers foundSuppliers
      rw [List.filter_eq_nil_iff.mpr hflt]
      rfl
    have hex : ∃ r ∈ rs, r.found = false := by
      obtain ⟨r, hr⟩ := List.exists_mem_of_ne_nil rs hne
      refine ⟨r, hr, ?_⟩
      cases hq : r.found
      · rfl
      · exact absurd hq (hflt r hr)
    rw [hdist, if_pos hex]
    have hcerts : noBar (pyJoin " - " (rs.map (fun r => r.cert_lot))) := by
      apply noBar_pyJoin _ _ (by decide)
      intro p hp
      obtain ⟨r, hr, hre⟩ := List.mem_map.mp hp
      rw [← hre]
      exact (hfields r hr).1
    unfold numSegments
    rw [strCount_append, strCount_append,
      count_noBar _ (show noBar "غير مسجل في النظام / " by decide),
      count_noBar _ hcerts,
      count_noBar _ (show noBar " N/A" by decide)]

/-- C7 witness: the amended theorem applied at one found ("Acme") and one
not-found result — the composed string has two segments. -/
theorem C7_witness :
    numSegments
        (generate_annotation_text
          [{ cert_lot := "139912", found := true, supplier := some "Acme",
             internal_lot := some "551" },
           { cert_lot := "999999", found := false }] none) =
      distinctFoundSuppliers
          [{ cert_lot := "139912", found := true, supplier := some "Acme",
             internal_lot := some "551" },
           { cert_lot := "999999", found := false }] +
        (if ∃ r ∈ [({ cert_lot := "139912", found := true, supplier := some "Acme",
                      internal_lot := some "551" } : LotResult),
                   { cert_lot := "999999", found := false }], r.found = false
          then 1 else 0) :=
  C7_segment_count
    [{ cert_lot := "139912", found := true, supplier := some "Acme",
       internal_lot := some "551" },
     { cert_lot := "999999", found := false }] none
    (by decide) (by decide) (fun h hh => Option.noConfusion hh)
